import Mathlib

/-!
Verification of the conversion-workflow controller in
`src/unit_converter_frontend/src/App.js`.

The controller is shallowly embedded: each `useState` slot of the `App`
component becomes a field of `AppState`; the two async submit handlers
(`handleConvert`, `handleCurrencyConvert`) become pure functions from the
current state and the outcome of the `fetch` call to the next state; the
two `useEffect` hooks (unit reset on category change, history append on
result change) become explicit state transformers.  A small labelled
transition system (`Event`/`step`/`run`) models the event-driven UI:
user edits, form submits (guarded by the buttons' `disabled` expressions)
and request completions.
-/

namespace UnitConverter

/-- The static category catalog (`staticConfig` in App.js), an ordered list
of key/unit-list pairs mirroring the JS object's literal order. -/
def staticConfig : List (String × List String) :=
  [ ("Length", ["meter", "kilometer", "mile", "inch", "foot"]),
    ("Weight", ["gram", "kilogram", "pound", "ounce"]),
    ("Temperature", ["celsius", "fahrenheit", "kelvin"]),
    ("Speed", ["meter_per_second", "kilometer_per_hour", "mile_per_hour"]),
    ("Currency", ["USD", "EUR", "GBP", "JPY", "INR"]) ]

/-- `Object.keys(staticConfig)`. -/
def catalogKeys : List String := staticConfig.map Prod.fst

/-- Lookup `staticConfig[c]`.  The component only ever indexes the catalog
with one of its own keys (the category dropdown lists exactly those), so the
`[]` default for unknown keys is never exercised. -/
def unitsFor (c : String) : List String := (staticConfig.lookup c).getD []

/-- The categories offered by the category dropdown:
`Object.keys(staticConfig).filter(cat => cat !== 'Currency')`. -/
def selectableCategories : List String := catalogKeys.filter (· != "Currency")

/-- `units[0]` in the category-change effect (all catalog lists are
non-empty, so the default is never used on catalog keys). -/
def resolveFromUnit (c : String) : String := (unitsFor c).headD ""

/-- `units[1] || units[0]` in the category-change effect.  JS `||` takes the
right operand when `units[1]` is absent (index out of range) or falsy (the
empty string). -/
def resolveToUnit (c : String) : String :=
  match (unitsFor c).get? 1 with
  | some u => if u = "" then (unitsFor c).headD "" else u
  | none => (unitsFor c).headD ""

/-- A history entry as built by the result effect:
`{ category, value, fromUnit, toUnit, result, timestamp: Date.now() }`.
`result` is the already-formatted display string; `timestamp` is modelled
as an abstract tick supplied by the transition system. -/
structure HistoryEntry where
  category : String
  value : String
  fromUnit : String
  toUnit : String
  result : String
  timestamp : Nat
deriving DecidableEq, Repr

/-- The history ledger's record operation:
`[entry, ...hist.slice(0, 9)]` — prepend, keeping at most the first nine
old entries. -/
def record {α : Type} (e : α) (h : List α) : List α := e :: h.take 9

/-- The `App` component's `useState` slots. -/
structure AppState where
  category : String
  value : String
  fromUnit : String
  toUnit : String
  result : String
  error : String
  isLoading : Bool
  enableCurrency : Bool
  currencyFrom : String
  currencyTo : String
  currencyValue : String
  currencyResult : String
  history : List HistoryEntry
deriving DecidableEq, Repr

/-- The initial state, from the `useState` initialisers. -/
def initState : AppState :=
  { category := "Length", value := "", fromUnit := "meter",
    toUnit := "kilometer", result := "", error := "", isLoading := false,
    enableCurrency := false, currencyFrom := "USD", currencyTo := "EUR",
    currencyValue := "", currencyResult := "", history := [] }

/-- A parsed JSON response body as the handlers read it: an optional
`detail` string and the `result` field (kept as the string it is
interpolated to by the template literal). -/
structure ResponseBody where
  detail : Option String
  result : String
deriving DecidableEq, Repr

/-- Outcome of one `fetch` call as seen by a handler's `try` block:
either the promise resolves with a status flag `ok` and a body — where
`none` stands for a body `res.json()` fails to parse (the rejection is
raised inside the `try`) — or the fetch itself rejects (network failure). -/
inductive FetchOutcome
  | response (ok : Bool) (body : Option ResponseBody)
  | networkError
deriving DecidableEq, Repr

/-- JS `x || d` on an optional string field: the default is taken when the
field is absent or the empty string (falsy). -/
def jsOrElse : Option String → String → String
  | some s, d => if s = "" then d else s
  | none, d => d

/-- The synchronous prefix of `handleConvert`:
`setError(''); setResult(''); setIsLoading(true)`. -/
def submitStdApp (s : AppState) : AppState :=
  { s with error := "", result := "", isLoading := true }

/-- The response processing of `handleConvert` (body of the `try` after the
`fetch`, plus the `catch`).  `tu` is the `toUnit` captured by the closure at
submit time. -/
def stdResponseApp (tu : String) (f : FetchOutcome) (s : AppState) : AppState :=
  match f with
  | .networkError => { s with error := "Could not reach backend." }
  | .response _ none => { s with error := "Could not reach backend." }
  | .response ok (some data) =>
      if ok then { s with result := data.result ++ " " ++ tu }
      else { s with error := jsOrElse data.detail "Conversion failed.", result := "" }

/-- The `finally` block of both handlers: `setIsLoading(false)`. -/
def finallyLoading (s : AppState) : AppState := { s with isLoading := false }

/-- The complete state update performed by one run of `handleConvert` whose
fetch finishes with outcome `f`.  Being a total Lean function, it witnesses
that no exception escapes the handler: every fetch outcome, including an
unparseable body, is mapped to a state. -/
def handleConvert (s : AppState) (f : FetchOutcome) : AppState :=
  finallyLoading (stdResponseApp s.toUnit f (submitStdApp s))

/-- The synchronous prefix of `handleCurrencyConvert`:
`setCurrencyResult(''); setError(''); setIsLoading(true)`. -/
def submitCurApp (s : AppState) : AppState :=
  { s with currencyResult := "", error := "", isLoading := true }

/-- The response processing of `handleCurrencyConvert`.  `ct` is the
`currencyTo` captured at submit time. -/
def curResponseApp (ct : String) (f : FetchOutcome) (s : AppState) : AppState :=
  match f with
  | .networkError => { s with error := "Could not reach backend for currency." }
  | .response _ none => { s with error := "Could not reach backend for currency." }
  | .response ok (some data) =>
      if ok then { s with currencyResult := data.result ++ " " ++ ct }
      else { s with error := jsOrElse data.detail "Currency conversion failed.",
                    currencyResult := "" }

/-- The complete state update performed by one run of `handleCurrencyConvert`
whose fetch finishes with outcome `f`. -/
def handleCurrencyConvert (s : AppState) (f : FetchOutcome) : AppState :=
  finallyLoading (curResponseApp s.currencyTo f (submitCurApp s))

/-- The standard submit button's `disabled` expression:
`isLoading || !value` (on a string, `!value` means `value === ''`). -/
def stdSubmitDisabled (s : AppState) : Bool := s.isLoading || s.value == ""

/-- The currency submit button's `disabled` expression:
`isLoading || !currencyValue`. -/
def curSubmitDisabled (s : AppState) : Bool := s.isLoading || s.currencyValue == ""

/-- The category-change effect body:
`setFromUnit(units[0]); setToUnit(units[1] || units[0])` after
`setCategory(c)`. -/
def changeCategoryApp (c : String) (s : AppState) : AppState :=
  { s with category := c, fromUnit := resolveFromUnit c, toUnit := resolveToUnit c }

/-- The guard of the history effect body:
`result && value && fromUnit && toUnit && !error && !isLoading && category !== 'Currency'`. -/
def resultEffectCond (s : AppState) : Bool :=
  s.result != "" && s.value != "" && s.fromUnit != "" && s.toUnit != "" &&
    s.error == "" && !s.isLoading && s.category != "Currency"

/-- The history effect (`useEffect` with dependency `[result]`): it runs
after a render in which `result` differs from its previous value
(`oldResult`), and then records an entry when the guard holds. -/
def applyResultEffect (oldResult : String) (now : Nat) (s : AppState) : AppState :=
  if s.result != oldResult && resultEffectCond s then
    let entry : HistoryEntry :=
      { category := s.category, value := s.value, fromUnit := s.fromUnit,
        toUnit := s.toUnit, result := s.result, timestamp := now }
    { s with history := record entry s.history }
  else s

/-- The discrete events the UI can deliver: user edits (guarded the way the
markup guards them), form submits (guarded by the `disabled` expressions and,
for currency, by the `enableCurrency` toggle that hides the form), and the
completion of an in-flight request with a given fetch outcome. -/
inductive Event
  | setCategory (c : String)
  | setValue (v : String)
  | setFromUnit (u : String)
  | setToUnit (u : String)
  | toggleCurrency (b : Bool)
  | setCurrencyValue (v : String)
  | setCurrencyFrom (u : String)
  | setCurrencyTo (u : String)
  | submitStd
  | submitCur
  | resolveStd (f : FetchOutcome)
  | resolveCur (f : FetchOutcome)
deriving DecidableEq, Repr

/-- The whole system: the component state plus the requests currently in
flight for each workflow.  A pending standard request remembers the `toUnit`
captured by `handleConvert`'s closure; a pending currency request remembers
the captured `currencyTo`.  `now` is an abstract clock for `Date.now()`,
advanced on every accepted event. -/
structure SysState where
  app : AppState
  stdPending : List String
  curPending : List String
  now : Nat
deriving DecidableEq, Repr

/-- The system at mount: initial component state, nothing in flight.  (The
mount-time run of the category effect is the identity here: the `useState`
initialisers already equal `resolve("Length")`.) -/
def initSys : SysState :=
  { app := initState, stdPending := [], curPending := [], now := 0 }

/-- One event step.  A rejected event (guard false, nothing in flight to
resolve) leaves the state untouched.  Every accepted event's state updates
are applied as one batch, after which the history effect observes whether
`result` changed across the batch. -/
def step (s : SysState) (e : Event) : SysState :=
  match e with
  | .setCategory c =>
      if selectableCategories.contains c && c != s.app.category then
        { s with app := applyResultEffect s.app.result s.now (changeCategoryApp c s.app),
                 now := s.now + 1 }
      else s
  | .setValue v =>
      { s with app := applyResultEffect s.app.result s.now { s.app with value := v },
               now := s.now + 1 }
  | .setFromUnit u =>
      if (unitsFor s.app.category).contains u then
        { s with app := applyResultEffect s.app.result s.now { s.app with fromUnit := u },
                 now := s.now + 1 }
      else s
  | .setToUnit u =>
      if (unitsFor s.app.category).contains u then
        { s with app := applyResultEffect s.app.result s.now { s.app with toUnit := u },
                 now := s.now + 1 }
      else s
  | .toggleCurrency b =>
      { s with app := applyResultEffect s.app.result s.now { s.app with enableCurrency := b },
               now := s.now + 1 }
  | .setCurrencyValue v =>
      if s.app.enableCurrency then
        { s with app := applyResultEffect s.app.result s.now { s.app with currencyValue := v },
                 now := s.now + 1 }
      else s
  | .setCurrencyFrom u =>
      if s.app.enableCurrency && (unitsFor "Currency").contains u then
        { s with app := applyResultEffect s.app.result s.now { s.app with currencyFrom := u },
                 now := s.now + 1 }
      else s
  | .setCurrencyTo u =>
      if s.app.enableCurrency && (unitsFor "Currency").contains u then
        { s with app := applyResultEffect s.app.result s.now { s.app with currencyTo := u },
                 now := s.now + 1 }
      else s
  | .submitStd =>
      if stdSubmitDisabled s.app then s
      else
        { s with app := applyResultEffect s.app.result s.now (submitStdApp s.app),
                 stdPending := s.stdPending ++ [s.app.toUnit],
                 now := s.now + 1 }
  | .submitCur =>
      if !s.app.enableCurrency || curSubmitDisabled s.app then s
      else
        { s with app := applyResultEffect s.app.result s.now (submitCurApp s.app),
                 curPending := s.curPending ++ [s.app.currencyTo],
                 now := s.now + 1 }
  | .resolveStd f =>
      match s.stdPending with
      | [] => s
      | tu :: rest =>
          { s with app := applyResultEffect s.app.result s.now
                     (finallyLoading (stdResponseApp tu f s.app)),
                   stdPending := rest,
                   now := s.now + 1 }
  | .resolveCur f =>
      match s.curPending with
      | [] => s
      | ct :: rest =>
          { s with app := applyResultEffect s.app.result s.now
                     (finallyLoading (curResponseApp ct f s.app)),
                   curPending := rest,
                   now := s.now + 1 }

/-- Run a sequence of events from a state. -/
def run (s : SysState) (es : List Event) : SysState := es.foldl step s

/-- In-flight bookkeeping invariant: at most one request is pending in
total, and the shared `isLoading` flag is up exactly while one is. -/
def InFlightInv (s : SysState) : Prop :=
  s.stdPending.length + s.curPending.length ≤ 1 ∧
  (s.app.isLoading = false ↔ (s.stdPending = [] ∧ s.curPending = []))

/-- The first replacement of `formatUnit`: `unit.replace(/_/g, ' ')`,
applied characterwise since both pattern and replacement are single
characters. -/
def replUnderscore (c : Char) : Char := if c = '_' then ' ' else c

/-- A JS word character for the non-unicode `\b` boundary: `[A-Za-z0-9_]`. -/
def isWordChar (c : Char) : Bool := c.isAlphanum || c = '_'

/-- The second replacement of `formatUnit`:
`.replace(/\b([a-z])/g, c => c.toUpperCase())`.  A lowercase ASCII letter
matches when it sits at a word boundary, i.e. at the start of the string or
after a non-word character; `prevW` records whether the previous character
was a word character.  Matching is on the original characters, but
uppercasing a letter keeps it a word character, so tracking the transformed
character is equivalent. -/
def capChar (prevW : Bool) (c : Char) : Char :=
  if !prevW && c.isLower then c.toUpper else c

def capWordInits : Bool → List Char → List Char
  | _, [] => []
  | prevW, c :: cs => capChar prevW c :: capWordInits (isWordChar c) cs

/-- `formatUnit` from App.js: return `''` on a falsy (empty) argument, else
replace underscores by spaces and uppercase every word-initial lowercase
letter. -/
def formatUnit (s : String) : String :=
  if s = "" then "" else String.mk (capWordInits false (s.data.map replUnderscore))

/-! ### Helper lemmas -/

@[simp]
theorem applyResultEffect_category (r : String) (n : Nat) (a : AppState) :
    (applyResultEffect r n a).category = a.category := by
  unfold applyResultEffect; split <;> rfl

@[simp]
theorem applyResultEffect_value (r : String) (n : Nat) (a : AppState) :
    (applyResultEffect r n a).value = a.value := by
  unfold applyResultEffect; split <;> rfl

@[simp]
theorem applyResultEffect_fromUnit (r : String) (n : Nat) (a : AppState) :
    (applyResultEffect r n a).fromUnit = a.fromUnit := by
  unfold applyResultEffect; split <;> rfl

@[simp]
theorem applyResultEffect_toUnit (r : String) (n : Nat) (a : AppState) :
    (applyResultEffect r n a).toUnit = a.toUnit := by
  unfold applyResultEffect; split <;> rfl

@[simp]
theorem applyResultEffect_result (r : String) (n : Nat) (a : AppState) :
    (applyResultEffect r n a).result = a.result := by
  unfold applyResultEffect; split <;> rfl

@[simp]
theorem applyResultEffect_error (r : String) (n : Nat) (a : AppState) :
    (applyResultEffect r n a).error = a.error := by
  unfold applyResultEffect; split <;> rfl

@[simp]
theorem applyResultEffect_isLoading (r : String) (n : Nat) (a : AppState) :
    (applyResultEffect r n a).isLoading = a.isLoading := by
  unfold applyResultEffect; split <;> rfl

@[simp]
theorem applyResultEffect_enableCurrency (r : String) (n : Nat) (a : AppState) :
    (applyResultEffect r n a).enableCurrency = a.enableCurrency := by
  unfold applyResultEffect; split <;> rfl

@[simp]
theorem applyResultEffect_currencyFrom (r : String) (n : Nat) (a : AppState) :
    (applyResultEffect r n a).currencyFrom = a.currencyFrom := by
  unfold applyResultEffect; split <;> rfl

@[simp]
theorem applyResultEffect_currencyTo (r : String) (n : Nat) (a : AppState) :
    (applyResultEffect r n a).currencyTo = a.currencyTo := by
  unfold applyResultEffect; split <;> rfl

@[simp]
theorem applyResultEffect_currencyValue (r : String) (n : Nat) (a : AppState) :
    (applyResultEffect r n a).currencyValue = a.currencyValue := by
  unfold applyResultEffect; split <;> rfl

@[simp]
theorem applyResultEffect_currencyResult (r : String) (n : Nat) (a : AppState) :
    (applyResultEffect r n a).currencyResult = a.currencyResult := by
  unfold applyResultEffect; split <;> rfl

/-- The history effect does nothing when the render did not change `result`. -/
theorem applyResultEffect_of_result_eq {r : String} {a : AppState} (n : Nat)
    (h : a.result = r) : applyResultEffect r n a = a := by
  unfold applyResultEffect
  simp [h]

/-- The history effect does nothing when the new `result` is empty. -/
theorem applyResultEffect_of_result_empty {r : String} {a : AppState} (n : Nat)
    (h : a.result = "") : applyResultEffect r n a = a := by
  unfold applyResultEffect resultEffectCond
  simp [h]

@[simp]
theorem curResponseApp_result (ct : String) (f : FetchOutcome) (a : AppState) :
    (curResponseApp ct f a).result = a.result := by
  unfold curResponseApp
  cases f with
  | networkError => rfl
  | response ok body =>
      cases body with
      | none => rfl
      | some data => dsimp only; split <;> rfl

@[simp]
theorem curResponseApp_history (ct : String) (f : FetchOutcome) (a : AppState) :
    (curResponseApp ct f a).history = a.history := by
  unfold curResponseApp
  cases f with
  | networkError => rfl
  | response ok body =>
      cases body with
      | none => rfl
      | some data => dsimp only; split <;> rfl

@[simp]
theorem stdResponseApp_currencyResult (tu : String) (f : FetchOutcome) (a : AppState) :
    (stdResponseApp tu f a).currencyResult = a.currencyResult := by
  unfold stdResponseApp
  cases f with
  | networkError => rfl
  | response ok body =>
      cases body with
      | none => rfl
      | some data => dsimp only; split <;> rfl

@[simp]
theorem stdResponseApp_history (tu : String) (f : FetchOutcome) (a : AppState) :
    (stdResponseApp tu f a).history = a.history := by
  unfold stdResponseApp
  cases f with
  | networkError => rfl
  | response ok body =>
      cases body with
      | none => rfl
      | some data => dsimp only; split <;> rfl

theorem inFlightInv_init : InFlightInv initSys := by
  constructor <;> simp [initSys, initState]

/-- Any event that only rewrites non-loading component fields preserves the
invariant. -/
theorem inFlightInv_ui {s : SysState} (a : AppState)
    (hL : a.isLoading = s.app.isLoading) (h : InFlightInv s) :
    InFlightInv { s with app := applyResultEffect s.app.result s.now a,
                         now := s.now + 1 } := by
  obtain ⟨h1, h2⟩ := h
  exact ⟨h1, by simpa [applyResultEffect_isLoading, hL] using h2⟩

theorem inFlightInv_step (s : SysState) (e : Event) (h : InFlightInv s) :
    InFlightInv (step s e) := by
  obtain ⟨h1, h2⟩ := h
  cases e with
  | setCategory c =>
      simp only [step]; split
      · exact inFlightInv_ui _ rfl ⟨h1, h2⟩
      · exact ⟨h1, h2⟩
  | setValue v => exact inFlightInv_ui _ rfl ⟨h1, h2⟩
  | setFromUnit u =>
      simp only [step]; split
      · exact inFlightInv_ui _ rfl ⟨h1, h2⟩
      · exact ⟨h1, h2⟩
  | setToUnit u =>
      simp only [step]; split
      · exact inFlightInv_ui _ rfl ⟨h1, h2⟩
      · exact ⟨h1, h2⟩
  | toggleCurrency b => exact inFlightInv_ui _ rfl ⟨h1, h2⟩
  | setCurrencyValue v =>
      simp only [step]; split
      · exact inFlightInv_ui _ rfl ⟨h1, h2⟩
      · exact ⟨h1, h2⟩
  | setCurrencyFrom u =>
      simp only [step]; split
      · exact inFlightInv_ui _ rfl ⟨h1, h2⟩
      · exact ⟨h1, h2⟩
  | setCurrencyTo u =>
      simp only [step]; split
      · exact inFlightInv_ui _ rfl ⟨h1, h2⟩
      · exact ⟨h1, h2⟩
  | submitStd =>
      simp only [step]; split
      · exact ⟨h1, h2⟩
      · rename_i hg
        have hL : s.app.isLoading = false := by
          revert hg
          unfold stdSubmitDisabled
          cases s.app.isLoading <;> simp
        obtain ⟨hstd, hcur⟩ := h2.mp hL
        constructor
        · simp [hstd, hcur]
        · simp [applyResultEffect_isLoading, submitStdApp, hstd, hcur]
  | submitCur =>
      simp only [step]; split
      · exact ⟨h1, h2⟩
      · rename_i hg
        have hL : s.app.isLoading = false := by
          revert hg
          unfold curSubmitDisabled
          cases s.app.isLoading <;> simp
        obtain ⟨hstd, hcur⟩ := h2.mp hL
        constructor
        · simp [hstd, hcur]
        · simp [applyResultEffect_isLoading, submitCurApp, hstd, hcur]
  | resolveStd f =>
      simp only [step]
      cases hp : s.stdPending with
      | nil => exact ⟨h1, h2⟩
      | cons tu rest =>
          rw [hp] at h1
          have hrest : rest = [] := by
            cases rest with
            | nil => rfl
            | cons a as => simp at h1; omega
          have hcur : s.curPending = [] := by
            cases hc : s.curPending with
            | nil => rfl
            | cons a as => rw [hc] at h1; simp at h1; omega
          constructor
          · simp [hrest, hcur]
          · simp [applyResultEffect_isLoading, finallyLoading, hrest, hcur]
  | resolveCur f =>
      simp only [step]
      cases hp : s.curPending with
      | nil => exact ⟨h1, h2⟩
      | cons ct rest =>
          rw [hp] at h1
          have hrest : rest = [] := by
            cases rest with
            | nil => rfl
            | cons a as => simp at h1; omega
          have hstd : s.stdPending = [] := by
            cases hc : s.stdPending with
            | nil => rfl
            | cons a as => rw [hc] at h1; simp at h1; omega
          constructor
          · simp [hrest, hstd]
          · simp [applyResultEffect_isLoading, finallyLoading, hrest, hstd]

theorem inFlightInv_run_aux (es : List Event) :
    ∀ s : SysState, InFlightInv s → InFlightInv (run s es) := by
  induction es with
  | nil => intro s h; exact h
  | cons e es ih => intro s h; exact ih (step s e) (inFlightInv_step s e h)

theorem inFlightInv_run (es : List Event) : InFlightInv (run initSys es) :=
  inFlightInv_run_aux es initSys inFlightInv_init

/-- An accepted category-change event routes the unit selection through the
resolver. -/
theorem step_setCategory_units (sys : SysState) (c : String)
    (hg : (selectableCategories.contains c && c != sys.app.category) = true) :
    (step sys (.setCategory c)).app.fromUnit = resolveFromUnit c ∧
    (step sys (.setCategory c)).app.toUnit = resolveToUnit c := by
  simp only [step]
  rw [if_pos hg]
  exact ⟨by simp [changeCategoryApp], by simp [changeCategoryApp]⟩

/-! ### Claims -/

/-- C1: for every category `c` present in the catalog, the resolver run on a
category change sets `fromUnit` to the first entry of `catalog[c]` and
`toUnit` to the second entry when the list has more than one element, else
to the first; the reset applies on every category-change event and its
output does not depend on the previously selected units (binders `a`,
`sys`). -/
theorem category_change_resets_unit_selection
    (c c' : String) (a : AppState) (sys : SysState)
    (hc : c ∈ catalogKeys) (hc' : c' ∈ selectableCategories)
    (hne : c' ≠ sys.app.category) :
    (changeCategoryApp c a).fromUnit = (unitsFor c).headD "" ∧
    (changeCategoryApp c a).toUnit =
      (if 1 < (unitsFor c).length then (unitsFor c).getD 1 "" else (unitsFor c).headD "") ∧
    (step sys (.setCategory c')).app.fromUnit = (unitsFor c').headD "" ∧
    (step sys (.setCategory c')).app.toUnit =
      (if 1 < (unitsFor c').length then (unitsFor c').getD 1 "" else (unitsFor c').headD "") := by
  have hto : resolveToUnit c =
      (if 1 < (unitsFor c).length then (unitsFor c).getD 1 "" else (unitsFor c).headD "") := by
    have hk : catalogKeys = ["Length", "Weight", "Temperature", "Speed", "Currency"] := rfl
    rw [hk] at hc
    simp only [List.mem_cons, List.not_mem_nil, or_false] at hc
    rcases hc with rfl | rfl | rfl | rfl | rfl <;> decide
  refine ⟨rfl, hto, ?_⟩
  have hk' : selectableCategories = ["Length", "Weight", "Temperature", "Speed"] := rfl
  rw [hk'] at hc'
  simp only [List.mem_cons, List.not_mem_nil, or_false] at hc'
  rcases hc' with rfl | rfl | rfl | rfl <;>
    · obtain ⟨hf, ht⟩ := step_setCategory_units sys _
        (by rw [Bool.and_eq_true]; exact ⟨by decide, bne_iff_ne.mpr hne⟩)
      exact ⟨hf.trans rfl, ht.trans (by decide)⟩

theorem category_change_resets_unit_selection_witness :
    "Temperature" ∈ catalogKeys ∧ "Weight" ∈ selectableCategories ∧
    "Weight" ≠ initSys.app.category ∧
    ((changeCategoryApp "Temperature" initState).fromUnit = (unitsFor "Temperature").headD "" ∧
     (changeCategoryApp "Temperature" initState).toUnit =
       (if 1 < (unitsFor "Temperature").length then (unitsFor "Temperature").getD 1 ""
        else (unitsFor "Temperature").headD "") ∧
     (step initSys (.setCategory "Weight")).app.fromUnit = (unitsFor "Weight").headD "" ∧
     (step initSys (.setCategory "Weight")).app.toUnit =
       (if 1 < (unitsFor "Weight").length then (unitsFor "Weight").getD 1 ""
        else (unitsFor "Weight").headD "")) :=
  ⟨by decide, by decide, by decide,
    category_change_resets_unit_selection "Temperature" "Weight" initState initSys
      (by decide) (by decide) (by decide)⟩

/-- Folding `record` keeps the ledger within the cap provided it starts
within it. -/
theorem record_foldl_length_le {α : Type} (es : List α) :
    ∀ h : List α, h.length ≤ 10 →
      (es.foldl (fun acc e => record e acc) h).length ≤ 10 := by
  induction es with
  | nil => intro h hh; simpa using hh
  | cons e es ih =>
      intro h hh
      simp only [List.foldl_cons]
      apply ih
      unfold record
      simp only [List.length_cons, List.length_take]
      omega

/-- C2: `record` prepends and truncates to ten entries, so recording eleven
distinct entries in sequence — from any starting ledger — leaves exactly the
last ten, most-recent-first, with the first of the eleven gone; and, from
the empty ledger, no sequence `es` of records ever pushes the length past
ten. -/
theorem historyLedger_record_bounded {α : Type}
    (h0 : List α) (e1 e2 e3 e4 e5 e6 e7 e8 e9 e10 e11 : α) (es : List α)
    (hd : ([e1, e2, e3, e4, e5, e6, e7, e8, e9, e10, e11] : List α).Nodup) :
    ([e1, e2, e3, e4, e5, e6, e7, e8, e9, e10, e11].foldl
        (fun acc e => record e acc) h0)
      = [e11, e10, e9, e8, e7, e6, e5, e4, e3, e2] ∧
    ([e11, e10, e9, e8, e7, e6, e5, e4, e3, e2] : List α).length = 10 ∧
    e1 ∉ ([e11, e10, e9, e8, e7, e6, e5, e4, e3, e2] : List α) ∧
    (es.foldl (fun acc e => record e acc) ([] : List α)).length ≤ 10 := by
  refine ⟨?_, rfl, ?_, record_foldl_length_le es [] (by simp)⟩
  · simp [record, List.take_take]
  · simp only [List.nodup_cons] at hd
    obtain ⟨h1, -⟩ := hd
    simp only [List.mem_cons, List.not_mem_nil, or_false, not_or] at h1 ⊢
    tauto

/-- C3 counterexample: the claim says a non-success response's `detail`
field becomes the error message whenever the field is present, but for a
response carrying `detail: ""` (present yet falsy) the handler's
`data.detail || 'Conversion failed.'` discards it and reports the fallback
message instead of the empty detail. -/
theorem convert_error_detail_empty_cex :
    (handleConvert initState
        (.response false (some { detail := some "", result := "0" }))).error
      = "Conversion failed." ∧
    (handleConvert initState
        (.response false (some { detail := some "", result := "0" }))).error
      ≠ "" := by
  exact ⟨rfl, by decide⟩

/-- C3 (amended): on a non-success response the workflow ends in Error with
the service's `detail` as message when it is present and non-empty, else
exactly "Conversion failed."; on transport failure (or an unparseable body)
with exactly "Could not reach backend."; the failure branch clears the
result and every branch lowers the loading flag — the handler being a total
function, no exception escapes it. -/
theorem convert_error_messages (s : AppState) (d r : String) (b : Bool)
    (f : FetchOutcome) :
    (handleConvert s (.response false (some { detail := some d, result := r }))).error
      = (if d = "" then "Conversion failed." else d) ∧
    (handleConvert s (.response false (some { detail := none, result := r }))).error
      = "Conversion failed." ∧
    (handleConvert s .networkError).error = "Could not reach backend." ∧
    (handleConvert s (.response b none)).error = "Could not reach backend." ∧
    (handleConvert s (.response false (some { detail := some d, result := r }))).result
      = "" ∧
    (handleConvert s f).isLoading = false := by
  refine ⟨rfl, rfl, rfl, ?_, rfl, rfl⟩
  cases b <;> rfl

/-- C10: a reachable endpoint whose body fails to parse rejects inside the
same `try`, so the `catch` reports the transport message, not the service
fallback. -/
theorem convert_unparseable_body_is_transport_error (s : AppState) (ok : Bool) :
    (handleConvert s (.response ok none)).error = "Could not reach backend." ∧
    (handleConvert s (.response ok none)).error
      = (handleConvert s .networkError).error ∧
    (handleConvert s (.response ok none)).error ≠ "Conversion failed." := by
  refine ⟨?_, ?_, ?_⟩
  · cases ok <;> rfl
  · cases ok <;> rfl
  · cases ok <;> simp [handleConvert, stdResponseApp, finallyLoading]

/-- C8 counterexample: the currency controller does not share the standard
controller's failure messages — for the same detail-less failure response
the standard handler reports "Conversion failed." while the currency
handler reports "Currency conversion failed.", and on transport failure it
reports "Could not reach backend for currency." instead of
"Could not reach backend.". -/
theorem currency_messages_differ_cex :
    (handleCurrencyConvert initState
        (.response false (some { detail := none, result := "0" }))).error
      = "Currency conversion failed." ∧
    (handleConvert initState
        (.response false (some { detail := none, result := "0" }))).error
      = "Conversion failed." ∧
    ("Currency conversion failed." : String) ≠ "Conversion failed." ∧
    (handleCurrencyConvert initState .networkError).error
      = "Could not reach backend for currency." ∧
    ("Could not reach backend for currency." : String) ≠ "Could not reach backend." := by
  exact ⟨rfl, rfl, by decide, rfl, by decide⟩

/-- C8 (amended): the currency controller follows the same state-machine
shape as the standard one on `{amount, fromCurrency, toCurrency}` — detail
pass-through on truthy detail, a fallback message when the detail is absent
or empty, a transport message when unreachable or unparseable, result set
from `result` and the target unit, loading cleared at the end — but its
fallback and transport messages are the currency-specific strings
"Currency conversion failed." and "Could not reach backend for currency.",
not the standard workflow's messages. -/
theorem currency_handler_refines_standard (s : AppState) (d r : String)
    (b : Bool) (f : FetchOutcome) :
    (handleCurrencyConvert s
        (.response false (some { detail := some d, result := r }))).error
      = (if d = "" then "Currency conversion failed." else d) ∧
    (handleCurrencyConvert s
        (.response false (some { detail := none, result := r }))).error
      = "Currency conversion failed." ∧
    (handleCurrencyConvert s .networkError).error
      = "Could not reach backend for currency." ∧
    (handleCurrencyConvert s (.response b none)).error
      = "Could not reach backend for currency." ∧
    (handleCurrencyConvert s (.response true (some { detail := some d, result := r }))).currencyResult
      = r ++ " " ++ s.currencyTo ∧
    (handleConvert s (.response true (some { detail := some d, result := r }))).result
      = r ++ " " ++ s.toUnit ∧
    (handleCurrencyConvert s
        (.response false (some { detail := some d, result := r }))).currencyResult
      = "" ∧
    (handleCurrencyConvert s f).isLoading = false ∧
    (handleConvert s f).isLoading = false := by
  refine ⟨rfl, rfl, rfl, ?_, rfl, rfl, rfl, rfl, rfl⟩
  cases b <;> rfl

theorem historyLedger_record_bounded_witness :
    (([1, 2, 3, 4, 5, 6, 7, 8, 9, 10, 11] : List Nat).Nodup) ∧
    ((([1, 2, 3, 4, 5, 6, 7, 8, 9, 10, 11] : List Nat).foldl
        (fun acc e => record e acc) [42])
      = [11, 10, 9, 8, 7, 6, 5, 4, 3, 2] ∧
     ([11, 10, 9, 8, 7, 6, 5, 4, 3, 2] : List Nat).length = 10 ∧
     (1 : Nat) ∉ ([11, 10, 9, 8, 7, 6, 5, 4, 3, 2] : List Nat) ∧
     (([20, 21] : List Nat).foldl (fun acc e => record e acc) ([] : List Nat)).length ≤ 10) :=
  ⟨by decide,
    historyLedger_record_bounded [42] 1 2 3 4 5 6 7 8 9 10 11 [20, 21] (by decide)⟩

/-- C4: whenever the (shared) loading flag is up in a reachable state, both
submit buttons are disabled, a submit event of either workflow is not
accepted (the state is unchanged, so no request is issued), and each
workflow has at most one request in flight. -/
theorem loading_disables_submit (es : List Event)
    (h : (run initSys es).app.isLoading = true) :
    stdSubmitDisabled (run initSys es).app = true ∧
    curSubmitDisabled (run initSys es).app = true ∧
    step (run initSys es) .submitStd = run initSys es ∧
    step (run initSys es) .submitCur = run initSys es ∧
    (run initSys es).stdPending.length ≤ 1 ∧
    (run initSys es).curPending.length ≤ 1 := by
  obtain ⟨h1, -⟩ := inFlightInv_run es
  have hsd : stdSubmitDisabled (run initSys es).app = true := by
    simp [stdSubmitDisabled, h]
  have hcd : curSubmitDisabled (run initSys es).app = true := by
    simp [curSubmitDisabled, h]
  refine ⟨hsd, hcd, ?_, ?_, by omega, by omega⟩
  · simp only [step]
    rw [if_pos hsd]
  · simp only [step]
    rw [if_pos (by rw [hcd, Bool.or_true])]

theorem loading_disables_submit_witness :
    (run initSys [Event.setValue "3", Event.submitStd]).app.isLoading = true ∧
    (stdSubmitDisabled (run initSys [Event.setValue "3", Event.submitStd]).app = true ∧
     curSubmitDisabled (run initSys [Event.setValue "3", Event.submitStd]).app = true ∧
     step (run initSys [Event.setValue "3", Event.submitStd]) .submitStd
       = run initSys [Event.setValue "3", Event.submitStd] ∧
     step (run initSys [Event.setValue "3", Event.submitStd]) .submitCur
       = run initSys [Event.setValue "3", Event.submitStd] ∧
     (run initSys [Event.setValue "3", Event.submitStd]).stdPending.length ≤ 1 ∧
     (run initSys [Event.setValue "3", Event.submitStd]).curPending.length ≤ 1) :=
  ⟨by decide, loading_disables_submit [Event.setValue "3", Event.submitStd] (by decide)⟩

/-- C5: no currency event — submit, completion, toggle or field edit — ever
changes the history ledger, and any event that does change it is the
completion of a standard request with a successful, parseable response. -/
theorem currency_never_recorded (s : SysState) (e : Event) (f : FetchOutcome)
    (b : Bool) (v : String) :
    (step s .submitCur).app.history = s.app.history ∧
    (step s (.resolveCur f)).app.history = s.app.history ∧
    (step s (.toggleCurrency b)).app.history = s.app.history ∧
    (step s (.setCurrencyValue v)).app.history = s.app.history ∧
    (step s (.setCurrencyFrom v)).app.history = s.app.history ∧
    (step s (.setCurrencyTo v)).app.history = s.app.history ∧
    ((step s e).app.history = s.app.history ∨
      ∃ body : ResponseBody, e = .resolveStd (.response true (some body))) := by
  have hsubCur : (step s .submitCur).app.history = s.app.history := by
    simp only [step]
    split
    · rfl
    · simp [applyResultEffect, submitCurApp]
  have hresCur : ∀ g : FetchOutcome,
      (step s (.resolveCur g)).app.history = s.app.history := by
    intro g
    simp only [step]
    cases s.curPending with
    | nil => rfl
    | cons ct rest =>
        cases g with
        | networkError => simp [applyResultEffect, finallyLoading, curResponseApp]
        | response ok body =>
            cases body with
            | none => simp [applyResultEffect, finallyLoading, curResponseApp]
            | some data =>
                cases ok <;>
                  simp [applyResultEffect, resultEffectCond, finallyLoading, curResponseApp]
  refine ⟨hsubCur, hresCur f, ?_, ?_, ?_, ?_, ?_⟩
  · rw [step]; simp [applyResultEffect]
  · simp only [step]
    split
    · simp [applyResultEffect]
    · rfl
  · simp only [step]
    split
    · simp [applyResultEffect]
    · rfl
  · simp only [step]
    split
    · simp [applyResultEffect]
    · rfl
  · cases e with
    | setCategory c =>
        left; simp only [step]
        split
        · simp [applyResultEffect, changeCategoryApp]
        · rfl
    | setValue v' => left; rw [step]; simp [applyResultEffect]
    | setFromUnit u =>
        left; simp only [step]
        split
        · simp [applyResultEffect]
        · rfl
    | setToUnit u =>
        left; simp only [step]
        split
        · simp [applyResultEffect]
        · rfl
    | toggleCurrency b' => left; rw [step]; simp [applyResultEffect]
    | setCurrencyValue v' =>
        left; simp only [step]
        split
        · simp [applyResultEffect]
        · rfl
    | setCurrencyFrom u =>
        left; simp only [step]
        split
        · simp [applyResultEffect]
        · rfl
    | setCurrencyTo u =>
        left; simp only [step]
        split
        · simp [applyResultEffect]
        · rfl
    | submitStd =>
        left; simp only [step]
        split
        · rfl
        · simp [applyResultEffect, resultEffectCond, submitStdApp]
    | submitCur => left; exact hsubCur
    | resolveStd g =>
        cases hp : s.stdPending with
        | nil => left; simp only [step, hp]
        | cons tu rest =>
            cases g with
            | networkError =>
                left; simp only [step, hp]
                simp [applyResultEffect, finallyLoading, stdResponseApp]
            | response ok body =>
                cases body with
                | none =>
                    left; simp only [step, hp]
                    simp [applyResultEffect, finallyLoading, stdResponseApp]
                | some data =>
                    cases ok with
                    | true => right; exact ⟨data, rfl⟩
                    | false =>
                        left; simp only [step, hp]
                        simp [applyResultEffect, resultEffectCond, finallyLoading,
                              stdResponseApp]
    | resolveCur g => left; exact hresCur g

/-- C6 counterexample: after enabling the currency panel and filling both
value fields, a currency submit alone flips the single shared `isLoading`
flag, which puts the standard workflow's button into its disabled state and
makes a standard submit a no-op — so the two workflows share mutable state
beyond the error slot and cannot both have a request in flight. -/
theorem workflows_not_independent_cex :
    (run initSys [.setValue "3", .toggleCurrency true, .setCurrencyValue "5"]).app.isLoading
      = false ∧
    stdSubmitDisabled
      (run initSys [.setValue "3", .toggleCurrency true, .setCurrencyValue "5"]).app
      = false ∧
    (run initSys
        [.setValue "3", .toggleCurrency true, .setCurrencyValue "5", .submitCur]).app.isLoading
      = true ∧
    stdSubmitDisabled
      (run initSys
        [.setValue "3", .toggleCurrency true, .setCurrencyValue "5", .submitCur]).app
      = true ∧
    step (run initSys [.setValue "3", .toggleCurrency true, .setCurrencyValue "5", .submitCur])
        .submitStd
      = run initSys [.setValue "3", .toggleCurrency true, .setCurrencyValue "5", .submitCur] ∧
    (run initSys
        [.setValue "3", .toggleCurrency true, .setCurrencyValue "5", .submitCur]).curPending
      ≠ [] ∧
    (run initSys
        [.setValue "3", .toggleCurrency true, .setCurrencyValue "5", .submitCur]).stdPending
      = [] := by
  decide

/-- C6 (amended): the two workflows keep their per-workflow request data
separate — neither workflow's submit or completion touches the other's
result field or the currency toggle — but they share the error-display slot
and the single `isLoading` flag: an accepted submit of either workflow sets
that one flag, and in every reachable state at most one request in total
(hence never one per workflow concurrently) is in flight. -/
theorem workflows_share_loading_flag (es : List Event) (s : SysState)
    (f : FetchOutcome) :
    (run initSys es).stdPending.length + (run initSys es).curPending.length ≤ 1 ∧
    (step s .submitCur).app.result = s.app.result ∧
    (step s (.resolveCur f)).app.result = s.app.result ∧
    (step s .submitStd).app.currencyResult = s.app.currencyResult ∧
    (step s (.resolveStd f)).app.currencyResult = s.app.currencyResult ∧
    (step s .submitStd).app.enableCurrency = s.app.enableCurrency ∧
    (step s (.resolveStd f)).app.enableCurrency = s.app.enableCurrency ∧
    (step s .submitCur).app.isLoading
      = (if (!s.app.enableCurrency || curSubmitDisabled s.app) then s.app.isLoading
         else true) ∧
    (step s .submitStd).app.isLoading
      = (if stdSubmitDisabled s.app then s.app.isLoading else true) := by
  refine ⟨(inFlightInv_run es).1, ?_, ?_, ?_, ?_, ?_, ?_, ?_, ?_⟩
  · simp only [step]
    split
    · rfl
    · simp [applyResultEffect_result, submitCurApp]
  · simp only [step]
    cases s.curPending with
    | nil => rfl
    | cons ct rest => simp [applyResultEffect_result, finallyLoading]
  · simp only [step]
    split
    · rfl
    · simp [applyResultEffect_currencyResult, submitStdApp]
  · simp only [step]
    cases s.stdPending with
    | nil => rfl
    | cons tu rest => simp [applyResultEffect_currencyResult, finallyLoading]
  · simp only [step]
    split
    · rfl
    · simp [applyResultEffect_enableCurrency, submitStdApp]
  · simp only [step]
    cases s.stdPending with
    | nil => rfl
    | cons tu rest =>
        simp only [applyResultEffect_enableCurrency, finallyLoading]
        cases f with
        | networkError => rfl
        | response ok body =>
            cases body with
            | none => rfl
            | some data =>
                simp only [stdResponseApp]
                split <;> rfl
  · simp only [step]
    split
    · rfl
    · simp [applyResultEffect_isLoading, submitCurApp]
  · simp only [step]
    split
    · rfl
    · simp [applyResultEffect_isLoading, submitStdApp]

/-- C7 counterexample: in a reachable state whose standard workflow shows
the error "bad unit", merely submitting a currency conversion clears that
message — an event of one workflow overwrites the other workflow's visible
error state. -/
theorem currency_submit_clears_standard_error_cex :
    (run initSys [.setValue "3", .submitStd,
        .resolveStd (.response false (some { detail := some "bad unit", result := "0" })),
        .toggleCurrency true, .setCurrencyValue "5"]).app.error = "bad unit" ∧
    (run initSys [.setValue "3", .submitStd,
        .resolveStd (.response false (some { detail := some "bad unit", result := "0" })),
        .toggleCurrency true, .setCurrencyValue "5", .submitCur]).app.error = "" := by
  decide

/-- C7 (amended): events of one workflow leave the other workflow's result,
input and history fields unchanged, but the error slot is shared: an
accepted submit of either workflow clears it, and a failed currency
response overwrites it with the currency failure message. -/
theorem cross_workflow_frame (s : SysState) (f : FetchOutcome) (d r : String) :
    (step s .submitCur).app.result = s.app.result ∧
    (step s .submitCur).app.value = s.app.value ∧
    (step s .submitCur).app.fromUnit = s.app.fromUnit ∧
    (step s .submitCur).app.toUnit = s.app.toUnit ∧
    (step s .submitCur).app.history = s.app.history ∧
    (step s (.resolveCur f)).app.result = s.app.result ∧
    (step s (.resolveCur f)).app.history = s.app.history ∧
    (step s .submitStd).app.currencyResult = s.app.currencyResult ∧
    (step s .submitStd).app.currencyValue = s.app.currencyValue ∧
    (step s (.resolveStd f)).app.currencyResult = s.app.currencyResult ∧
    (step s .submitCur).app.error
      = (if (!s.app.enableCurrency || curSubmitDisabled s.app) then s.app.error
         else "") ∧
    (step s (.resolveCur (.response false (some { detail := some d, result := r })))).app.error
      = (match s.curPending with
         | [] => s.app.error
         | _ :: _ => if d = "" then "Currency conversion failed." else d) ∧
    (step s .submitStd).app.error
      = (if stdSubmitDisabled s.app then s.app.error else "") := by
  refine ⟨?_, ?_, ?_, ?_, ?_, ?_, ?_, ?_, ?_, ?_, ?_, ?_, ?_⟩
  · simp only [step]
    split
    · rfl
    · simp [applyResultEffect_result, submitCurApp]
  · simp only [step]
    split
    · rfl
    · simp [applyResultEffect_value, submitCurApp]
  · simp only [step]
    split
    · rfl
    · simp [applyResultEffect_fromUnit, submitCurApp]
  · simp only [step]
    split
    · rfl
    · simp [applyResultEffect_toUnit, submitCurApp]
  · simp only [step]
    split
    · rfl
    · simp [applyResultEffect, submitCurApp]
  · simp only [step]
    cases s.curPending with
    | nil => rfl
    | cons ct rest => simp [applyResultEffect_result, finallyLoading]
  · simp only [step]
    cases s.curPending with
    | nil => rfl
    | cons ct rest =>
        cases f with
        | networkError => simp [applyResultEffect, finallyLoading, curResponseApp]
        | response ok body =>
            cases body with
            | none => simp [applyResultEffect, finallyLoading, curResponseApp]
            | some data =>
                cases ok <;>
                  simp [applyResultEffect, resultEffectCond, finallyLoading, curResponseApp]
  · simp only [step]
    split
    · rfl
    · simp [applyResultEffect_currencyResult, submitStdApp]
  · simp only [step]
    split
    · rfl
    · simp [applyResultEffect_currencyValue, submitStdApp]
  · simp only [step]
    cases s.stdPending with
    | nil => rfl
    | cons tu rest => simp [applyResultEffect_currencyResult, finallyLoading]
  · simp only [step]
    split
    · rfl
    · simp [applyResultEffect_error, submitCurApp]
  · simp only [step]
    cases s.curPending with
    | nil => rfl
    | cons ct rest =>
        simp [applyResultEffect_error, finallyLoading, curResponseApp, jsOrElse]
  · simp only [step]
    split
    · rfl
    · simp [applyResultEffect_error, submitStdApp]

/-! ### Character facts for the label formatter -/

theorem char_isLower_iff (c : Char) :
    c.isLower = true ↔ (97 ≤ c.toNat ∧ c.toNat ≤ 122) := by
  constructor
  · intro h; simp [Char.isLower, UInt32.le_def, BitVec.le_def] at h; exact h
  · intro h; simp [Char.isLower, UInt32.le_def, BitVec.le_def]; exact h

theorem char_toNat_ofNat {n : Nat} (h1 : 65 ≤ n) (h2 : n ≤ 90) :
    (Char.ofNat n).toNat = n := by
  unfold Char.ofNat
  rw [dif_pos]
  · rfl
  · left; omega

theorem char_toUpper_toNat {c : Char} (h : c.isLower = true) :
    c.toUpper.toNat = c.toNat - 32 := by
  obtain ⟨h1, h2⟩ := (char_isLower_iff c).mp h
  unfold Char.toUpper
  rw [if_pos ⟨h1, h2⟩]
  exact char_toNat_ofNat (by omega) (by omega)

theorem toUpper_toNat_bounds {c : Char} (h : c.isLower = true) :
    65 ≤ c.toUpper.toNat ∧ c.toUpper.toNat ≤ 90 := by
  obtain ⟨h1, h2⟩ := (char_isLower_iff c).mp h
  rw [char_toUpper_toNat h]
  omega

theorem toUpper_not_lower {c : Char} (h : c.isLower = true) :
    c.toUpper.isLower = false := by
  obtain ⟨h1, h2⟩ := toUpper_toNat_bounds h
  cases hl : c.toUpper.isLower with
  | false => rfl
  | true =>
      obtain ⟨h3, h4⟩ := (char_isLower_iff _).mp hl
      omega

theorem toUpper_ne_underscore {c : Char} (h : c.isLower = true) :
    c.toUpper ≠ '_' := by
  obtain ⟨h1, h2⟩ := toUpper_toNat_bounds h
  intro he
  have h95 : c.toUpper.toNat = 95 := by rw [he]; decide
  omega

theorem char_isUpper_iff (c : Char) :
    c.isUpper = true ↔ (65 ≤ c.toNat ∧ c.toNat ≤ 90) := by
  constructor
  · intro h; simp [Char.isUpper, UInt32.le_def, BitVec.le_def] at h; exact h
  · intro h; simp [Char.isUpper, UInt32.le_def, BitVec.le_def]; exact h

theorem isWordChar_of_isUpper {c : Char} (h : c.isUpper = true) :
    isWordChar c = true := by
  unfold isWordChar Char.isAlphanum Char.isAlpha
  rw [h]
  rfl

theorem isWordChar_of_isLower {c : Char} (h : c.isLower = true) :
    isWordChar c = true := by
  unfold isWordChar Char.isAlphanum Char.isAlpha
  rw [h]
  simp

theorem toUpper_isUpper {c : Char} (h : c.isLower = true) :
    c.toUpper.isUpper = true := by
  obtain ⟨h1, h2⟩ := toUpper_toNat_bounds h
  exact (char_isUpper_iff _).mpr ⟨h1, h2⟩

/-- On a prior word character `capChar` is the identity. -/
theorem capChar_true (c : Char) : capChar true c = c := rfl

theorem capChar_capChar (b : Bool) (c : Char) :
    capChar b (capChar b c) = capChar b c := by
  cases b with
  | true => rw [capChar_true, capChar_true]
  | false =>
      cases hc : c.isLower with
      | true =>
          have h1 : capChar false c = c.toUpper := by
            unfold capChar; rw [if_pos (by simp [hc])]
          rw [h1]
          unfold capChar
          rw [if_neg (by simp [toUpper_not_lower hc])]
      | false =>
          have h1 : capChar false c = c := by
            unfold capChar; rw [if_neg (by simp [hc])]
          rw [h1, h1]

theorem isWordChar_capChar (b : Bool) (c : Char) :
    isWordChar (capChar b c) = isWordChar c := by
  cases b with
  | true => rw [capChar_true]
  | false =>
      cases hc : c.isLower with
      | true =>
          have h1 : capChar false c = c.toUpper := by
            unfold capChar; rw [if_pos (by simp [hc])]
          rw [h1, isWordChar_of_isUpper (toUpper_isUpper hc), isWordChar_of_isLower hc]
      | false =>
          have h1 : capChar false c = c := by
            unfold capChar; rw [if_neg (by simp [hc])]
          rw [h1]

theorem capChar_ne_underscore {b : Bool} {c : Char} (h : c ≠ '_') :
    capChar b c ≠ '_' := by
  unfold capChar
  split
  · rename_i hb
    exact toUpper_ne_underscore (Bool.and_elim_right hb)
  · exact h

theorem repl_ne_underscore (c : Char) : replUnderscore c ≠ '_' := by
  unfold replUnderscore
  split
  · decide
  · assumption

theorem mem_map_repl_ne_underscore (l : List Char) :
    ∀ c ∈ l.map replUnderscore, c ≠ '_' := by
  intro c hc
  obtain ⟨a, -, rfl⟩ := List.mem_map.mp hc
  exact repl_ne_underscore a

theorem map_repl_eq_self {l : List Char} (h : ∀ c ∈ l, c ≠ '_') :
    l.map replUnderscore = l := by
  induction l with
  | nil => rfl
  | cons c cs ih =>
      simp only [List.map_cons]
      rw [show replUnderscore c = c from by
            unfold replUnderscore; rw [if_neg (h c (by simp))],
          ih (fun x hx => h x (by simp [hx]))]

theorem capWordInits_mem_ne_underscore (l : List Char) :
    ∀ (b : Bool) (c : Char), (∀ x ∈ l, x ≠ '_') → c ∈ capWordInits b l → c ≠ '_' := by
  induction l with
  | nil => intro b c h hc; simp [capWordInits] at hc
  | cons a as ih =>
      intro b c h hc
      simp only [capWordInits, List.mem_cons] at hc
      rcases hc with rfl | hc
      · exact capChar_ne_underscore (h a (by simp))
      · exact ih (isWordChar a) c (fun x hx => h x (by simp [hx])) hc

theorem map_repl_capWordInits (l : List Char) (hl : ∀ c ∈ l, c ≠ '_') (b : Bool) :
    (capWordInits b l).map replUnderscore = capWordInits b l :=
  map_repl_eq_self (fun c hc => capWordInits_mem_ne_underscore l b c hl hc)

theorem capWordInits_idem (l : List Char) :
    ∀ b : Bool, capWordInits b (capWordInits b l) = capWordInits b l := by
  induction l with
  | nil => intro b; rfl
  | cons c cs ih =>
      intro b
      simp only [capWordInits]
      rw [capChar_capChar, isWordChar_capChar, ih (isWordChar c)]

theorem capWordInits_length (l : List Char) :
    ∀ b : Bool, (capWordInits b l).length = l.length := by
  induction l with
  | nil => intro b; rfl
  | cons a as ih => intro b; simp [capWordInits, ih]

/-- C9: `formatUnit` is a pure function of its argument — underscores to
spaces, then word-initial lowercase letters uppercased — and it is
idempotent on every string: formatting an already formatted label changes
nothing. -/
theorem formatUnit_idempotent (u : String) :
    formatUnit (formatUnit u) = formatUnit u ∧
    formatUnit "meter_per_second" = "Meter Per Second" := by
  refine ⟨?_, by decide⟩
  by_cases hu : u = ""
  · subst hu; rfl
  · have hdata : u.data ≠ [] := by
      intro hd
      exact hu (String.ext hd)
    have hne : String.mk (capWordInits false (u.data.map replUnderscore)) ≠ "" := by
      intro he
      have hlen := congrArg (fun t : String => t.data.length) he
      simp only [capWordInits_length, List.length_map, List.length_nil] at hlen
      exact hdata (List.length_eq_zero.mp hlen)
    unfold formatUnit
    rw [if_neg hu, if_neg hne]
    congr 1
    have hmk : (String.mk (capWordInits false (u.data.map replUnderscore))).data
        = capWordInits false (u.data.map replUnderscore) := rfl
    rw [hmk, map_repl_capWordInits _ (mem_map_repl_ne_underscore u.data) false]
    exact capWordInits_idem _ false

end UnitConverter
